import Mathlib

/-!
# PDF splitter: page-arrangement and sectioning model

A shallow embedding of the state logic of `src/pages/index.tsx` (and, in the
`Colorful` namespace, of the logical-index-keyed variant
`src/pages/index_colorful.tsx`).  The React component state is collected into
one structure `AppState`; each event handler becomes a state transformer.
JavaScript peculiarities are kept: `%` on numbers is the truncating remainder
(`Int.tmod`), `Array.prototype.indexOf` returns `-1` on a miss so
`indexOf(x) + 1` is `0` there, and `Math.max(0, next.length - 1)` coincides
with truncated `Nat` subtraction.
-/

/-- Rotation direction accepted by `rotatePage` (`"left" | "right"`). -/
inductive Direction where
  | left : Direction
  | right : Direction
deriving DecidableEq

/-- The delta applied by `rotatePage`: `direction === "left" ? -90 : 90`. -/
def rotationDelta : Direction → Int
  | Direction.left => -90
  | Direction.right => 90

/-- The component state of `src/pages/index.tsx` that the arrangement and
sectioning logic reads and writes.  `rotations` is the `RotationMap` as a
total function (an absent key reads as `0`, mirroring `prev[logicalIndex] || 0`). -/
structure AppState where
  pageOrder : List Nat
  rotations : Nat → Int
  splitIndices : Finset Nat
  autoSplitEnabled : Bool
  autoSplitInterval : Nat
  skippedSections : Finset Nat

/-- `onDocumentLoadSuccess`: page order becomes the identity sequence,
rotations, split markers and skips are cleared. -/
def onDocumentLoadSuccess (numPages : Nat) : AppState :=
  { pageOrder := List.range numPages
    rotations := fun _ => 0
    splitIndices := ∅
    autoSplitEnabled := false
    autoSplitInterval := 1
    skippedSections := ∅ }

/-- `rotatePage(logicalIndex, direction)`: updates one key of the rotation map
to `((current + delta + 360) % 360)` (JS `%` = truncating remainder). -/
def rotatePage (s : AppState) (logicalIndex : Nat) (direction : Direction) : AppState :=
  { s with rotations := fun j =>
      if j = logicalIndex then
        Int.tmod (s.rotations logicalIndex + rotationDelta direction + 360) 360
      else s.rotations j }

/-- `duplicatePage(logicalIndex)`: `insertIndex = prev.indexOf(logicalIndex) + 1`
(JS `indexOf` is `-1` on a miss, so the insert lands at position `0`), then
`splice(insertIndex, 0, logicalIndex)`; finally the skip set is cleared. -/
def duplicatePage (s : AppState) (logicalIndex : Nat) : AppState :=
  let insertIndex := if logicalIndex ∈ s.pageOrder then s.pageOrder.indexOf logicalIndex + 1 else 0
  { s with
    pageOrder := s.pageOrder.insertIdx insertIndex logicalIndex
    skippedSections := ∅ }

/-- `deletePageAt(position, logicalIndex)`: out-of-range positions leave
`pageOrder` and `splitIndices` alone; otherwise the slot is spliced out and each
split marker `pos` survives as `pos` when `pos < position ∧ pos ≤ maxPos`, as
`pos - 1` when `pos > position ∧ pos - 1 ≤ maxPos`, and is dropped otherwise,
with `maxPos = Math.max(0, next.length - 1)`.  The skip set is cleared in every
case (the `setSkippedSections(new Set())` call sits outside the early return). -/
def deletePageAt (s : AppState) (position : Nat) : AppState :=
  if position < s.pageOrder.length then
    let next := s.pageOrder.eraseIdx position
    let maxPos := next.length - 1
    { s with
      pageOrder := next
      splitIndices :=
        (s.splitIndices.filter (fun pos => pos < position ∧ pos ≤ maxPos)) ∪
          ((s.splitIndices.filter (fun pos => position < pos ∧ pos - 1 ≤ maxPos)).image
            (fun pos => pos - 1))
      skippedSections := ∅ }
  else
    { s with skippedSections := ∅ }

/-- `toggleSplit(position)`: unconditionally toggles membership of `position`
in `splitIndices` and clears the skip set.  The source performs no range
check; the UI merely hides the split button on the last slot. -/
def toggleSplit (s : AppState) (position : Nat) : AppState :=
  { s with
    splitIndices :=
      if position ∈ s.splitIndices then s.splitIndices.erase position
      else insert position s.splitIndices
    skippedSections := ∅ }

/-- The auto-split interval `onChange` handler:
`Math.max(1, Number(e.target.value) || 1)` then `resetSkips()`. -/
def setAutoSplitInterval (s : AppState) (v : Nat) : AppState :=
  { s with autoSplitInterval := max 1 v, skippedSections := ∅ }

/-- The auto-split checkbox `onChange` handler: sets the flag and `resetSkips()`. -/
def setAutoSplitEnabled (s : AppState) (b : Bool) : AppState :=
  { s with autoSplitEnabled := b, skippedSections := ∅ }

/-- The per-section Remove/Restore button: toggles a section index in the skip
set.  The UI emits it only for indices of currently displayed sections. -/
def toggleSkip (s : AppState) (idx : Nat) : AppState :=
  { s with skippedSections :=
      if idx ∈ s.skippedSections then s.skippedSections.erase idx
      else insert idx s.skippedSections }

/-- The body of the interval-mode loop, structurally recursive on a fuel that
bounds the remaining iterations (with a positive interval the loop advances by
at least one slot per iteration, so `l.length` iterations always suffice). -/
def chunkAux (n : Nat) : Nat → List Nat → List (List Nat)
  | _, [] => []
  | 0, _ :: _ => []
  | fuel + 1, a :: t => (a :: t).take n :: chunkAux n fuel ((a :: t).drop n)

/-- The interval-mode loop of `buildSections`:
`for (i = 0; i < len; i += interval) push(slice(i, i + interval))`.
`buildSections` only runs it under its `autoSplitInterval > 0` guard, where the
fuel `l.length` is never exhausted. -/
def chunkList (n : Nat) (l : List Nat) : List (List Nat) :=
  if n = 0 then [] else chunkAux n l.length l

/-- The manual-mode loop of `buildSections`: walk the sorted marker positions,
clamp each to the last slot (`end = Math.min(pos, len - 1)`), slice when the
clamped marker does not precede the running `start`, and finally push the tail
slice.  `slice(start, e + 1)` is `(l.drop start).take (e + 1 - start)`. -/
def manualSections (l : List Nat) : List Nat → Nat → List (List Nat)
  | [], start => [l.drop start]
  | pos :: rest, start =>
    let e := min pos (l.length - 1)
    if start ≤ e then
      ((l.drop start).take (e + 1 - start)) :: manualSections l rest (e + 1)
    else
      manualSections l rest start

/-- `buildSections()`: empty order gives no sections; auto-split with a positive
interval chunks the order; otherwise the sorted manual markers partition it. -/
def buildSections (s : AppState) : List (List Nat) :=
  if s.pageOrder.isEmpty then []
  else if s.autoSplitEnabled ∧ 0 < s.autoSplitInterval then
    chunkList s.autoSplitInterval s.pageOrder
  else
    manualSections s.pageOrder (s.splitIndices.sort (· ≤ ·)) 0

/-- The download name `split_${i + 1}.pdf` given the 1-based number. -/
def splitFileName (i : Nat) : String :=
  "split_" ++ toString i ++ ".pdf"

/-- The pure download plan of `generateAndDownloadSplits`: filter the computed
sections by `(_, idx) => !skippedSections.has(idx)`, then emit the `i`-th
retained section as `split_${i + 1}.pdf`. -/
def exportOutputs (sections : List (List Nat)) (skipped : Finset Nat) :
    List (String × List Nat) :=
  let sectionsToDownload := sections.enum.filter (fun p => p.1 ∉ skipped)
  sectionsToDownload.enum.map (fun q => (splitFileName (q.1 + 1), q.2.2))

/-- `generateAndDownloadSplits()`: reads the state, never writes it (the body
contains no state setter; the `catch` arm only alerts).  `failAfter = some k`
models a codec failure after `k` files were already emitted — the remaining
downloads are abandoned but the state is still untouched. -/
def generateAndDownloadSplits (s : AppState) (failAfter : Option Nat) :
    AppState × List (String × List Nat) :=
  let plan := exportOutputs (buildSections s) s.skippedSections
  match failAfter with
  | none => (s, plan)
  | some k => (s, plan.take k)

namespace Colorful

/-- `deletePage(logicalIndex)` of `src/pages/index_colorful.tsx`: filters every
slot equal to the logical index out of `pageOrder` and deletes that value from
`splitIndices` (which this variant keys by logical index). -/
def deletePage (pageOrder : List Nat) (splitIndices : Finset Nat) (logicalIndex : Nat) :
    List Nat × Finset Nat :=
  (pageOrder.filter (fun idx => idx ≠ logicalIndex), splitIndices.erase logicalIndex)

end Colorful

/-! ## Shared sample state and rotation-step helpers -/

/-- A five-page document with manual markers after slots 1 and 3
(E2E scenario A of the specification). -/
def sampleState : AppState :=
  { pageOrder := [0, 1, 2, 3, 4]
    rotations := fun _ => 0
    splitIndices := {1, 3}
    autoSplitEnabled := false
    autoSplitInterval := 1
    skippedSections := ∅ }

/-- The per-key update performed by `rotatePage` on the stored angle. -/
def rotStep (d : Direction) (r : Int) : Int :=
  Int.tmod (r + rotationDelta d + 360) 360

/-- The admissible stored rotation angles (invariant I3). -/
def rotationRange : Finset Int := {0, 90, 180, 270}

theorem rotatePage_rotations_self (s : AppState) (i : Nat) (d : Direction) :
    (rotatePage s i d).rotations i = rotStep d (s.rotations i) := by
  simp [rotatePage, rotStep]

theorem rotStep_mem (d : Direction) {r : Int} (hr : r ∈ rotationRange) :
    rotStep d r ∈ rotationRange := by
  cases d <;> fin_cases hr <;> decide

theorem rotStep_four (d : Direction) {r : Int} (hr : r ∈ rotationRange) :
    (rotStep d)^[4] r = r := by
  cases d <;> fin_cases hr <;> decide

theorem rotStep_iterate_mul_four (d : Direction) {r : Int} (hr : r ∈ rotationRange)
    (q : Nat) : (rotStep d)^[4 * q] r = r := by
  induction q with
  | zero => simp
  | succ q ih =>
    have : 4 * (q + 1) = 4 * q + 4 := by ring
    rw [this, Function.iterate_add_apply, rotStep_four d hr, ih]

theorem rotStep_iterate_mod (d : Direction) {r : Int} (hr : r ∈ rotationRange)
    (k : Nat) : (rotStep d)^[k] r = (rotStep d)^[k % 4] r := by
  conv_lhs => rw [← Nat.div_add_mod k 4]
  rw [Nat.add_comm, Function.iterate_add_apply, rotStep_iterate_mul_four d hr]

theorem rotatePage_iterate_rotations (s : AppState) (i : Nat) (d : Direction) (k : Nat) :
    (((fun t => rotatePage t i d)^[k]) s).rotations i = (rotStep d)^[k] (s.rotations i) := by
  induction k with
  | zero => simp
  | succ k ih =>
    rw [Function.iterate_succ_apply', Function.iterate_succ_apply',
      rotatePage_rotations_self, ih]

/-- C6: for every logical index, every rotation table whose values obey
invariant I3, and every natural `k`, iterating `rotatePage` `k` times in one
direction stores the same angle at that index as iterating it `k % 4` times;
moreover one application keeps every stored value in `{0, 90, 180, 270}`, and
the table produced by document load only holds values of that set. -/
theorem rotatePage_period_and_range (s : AppState) (i : Nat) (d : Direction) (k : Nat)
    (hs : ∀ j, s.rotations j ∈ rotationRange) :
    (((fun t => rotatePage t i d)^[k]) s).rotations i =
      (((fun t => rotatePage t i d)^[k % 4]) s).rotations i ∧
    (∀ j, (rotatePage s i d).rotations j ∈ rotationRange) ∧
    (∀ n j, (onDocumentLoadSuccess n).rotations j ∈ rotationRange) := by
  refine ⟨?_, ?_, ?_⟩
  · rw [rotatePage_iterate_rotations, rotatePage_iterate_rotations,
      rotStep_iterate_mod d (hs i)]
  · intro j
    by_cases hj : j = i
    · subst hj
      rw [rotatePage_rotations_self]
      exact rotStep_mem d (hs j)
    · simpa [rotatePage, hj] using hs j
  · intro n j
    simp [onDocumentLoadSuccess, rotationRange]

/-- Witness for C6 at the loaded 5-page document, index 2, five right
rotations (5 % 4 = 1). -/
theorem rotatePage_period_and_range_witness :
    (∀ j, sampleState.rotations j ∈ rotationRange) ∧
    ((((fun t => rotatePage t 2 Direction.right)^[5]) sampleState).rotations 2 =
      (((fun t => rotatePage t 2 Direction.right)^[5 % 4]) sampleState).rotations 2 ∧
    (∀ j, (rotatePage sampleState 2 Direction.right).rotations j ∈ rotationRange) ∧
    (∀ n j, (onDocumentLoadSuccess n).rotations j ∈ rotationRange)) :=
  ⟨fun j => by show (0 : Int) ∈ rotationRange; decide,
    rotatePage_period_and_range sampleState 2 Direction.right 5
      (fun j => by show (0 : Int) ∈ rotationRange; decide)⟩

/-! ## C4: `toggleSplit` and out-of-range positions -/

/-- C4 counterexample: with `pageOrder = [0, 1]`, position `1` lies outside
`[0, len - 2] = [0, 0]`, yet `toggleSplit` is not a no-op — it stores the
marker, leaving the split-marker set changed. -/
theorem toggleSplit_out_of_range_not_noop :
    (AppState.mk [0, 1] (fun _ => 0) ∅ false 1 ∅).pageOrder.length - 2 < 1 ∧
    (toggleSplit (AppState.mk [0, 1] (fun _ => 0) ∅ false 1 ∅) 1).splitIndices ≠
      (AppState.mk [0, 1] (fun _ => 0) ∅ false 1 ∅).splitIndices := by
  constructor
  · decide
  · simp [toggleSplit]

/-- C4 amended: `toggleSplit` performs no range validation.  For every position
`p`, in range or not, it simply toggles membership of `p` in the split-marker
set: afterwards `q` is a marker exactly when `q` was already a marker other
than `p`, or `q = p` and `p` was not a marker.  `pageOrder` is untouched. -/
theorem toggleSplit_toggles (s : AppState) (p q : Nat) :
    (q ∈ (toggleSplit s p).splitIndices ↔
      (q ∈ s.splitIndices ∧ q ≠ p) ∨ (q = p ∧ p ∉ s.splitIndices)) ∧
    (toggleSplit s p).pageOrder = s.pageOrder := by
  refine ⟨?_, rfl⟩
  by_cases hp : p ∈ s.splitIndices <;> by_cases hq : q = p <;>
    simp [toggleSplit, hp, hq, Finset.mem_erase, Finset.mem_insert]

/-! ## C5: `duplicatePage` on an absent logical index -/

/-- C5: evaluating `duplicatePage` at the failing input.  Logical index `5` is
absent from `pageOrder = [0, 1]`; `indexOf` returns `-1`, so the splice lands at
position `0` and the order becomes `[5, 0, 1]` — not the unchanged `[0, 1]`
that a silent no-op would leave. -/
theorem duplicatePage_absent_not_noop :
    (duplicatePage (AppState.mk [0, 1] (fun _ => 0) ∅ false 1 ∅) 5).pageOrder = [5, 0, 1] ∧
    (duplicatePage (AppState.mk [0, 1] (fun _ => 0) ∅ false 1 ∅) 5).pageOrder ≠ [0, 1] := by
  constructor <;> simp [duplicatePage]

/-! ## C8: export never mutates the arrangement state -/

/-- C8: for every starting state, whether the export completes (`failAfter =
none`) or fails after any number of emitted files, `generateAndDownloadSplits`
leaves `pageOrder`, the rotation table, the split-marker set, and the skip set
exactly as they were. -/
theorem generateAndDownloadSplits_preserves_state (s : AppState) (failAfter : Option Nat) :
    (generateAndDownloadSplits s failAfter).1.pageOrder = s.pageOrder ∧
    (generateAndDownloadSplits s failAfter).1.rotations = s.rotations ∧
    (generateAndDownloadSplits s failAfter).1.splitIndices = s.splitIndices ∧
    (generateAndDownloadSplits s failAfter).1.skippedSections = s.skippedSections := by
  cases failAfter <;> simp [generateAndDownloadSplits]

/-! ## C9: the colorful variant deletes by logical index -/

/-- C9: `Colorful.deletePage` removes every slot equal to the logical index
(the multiplicity of that index drops to zero while every other index keeps its
multiplicity) and erases exactly the marker stored under that logical value. -/
theorem colorful_deletePage_removes_all (pageOrder : List Nat) (splits : Finset Nat)
    (logicalIndex : Nat) :
    (∀ x, List.count x (Colorful.deletePage pageOrder splits logicalIndex).1 =
      if x = logicalIndex then 0 else List.count x pageOrder) ∧
    (∀ m, m ∈ (Colorful.deletePage pageOrder splits logicalIndex).2 ↔
      m ∈ splits ∧ m ≠ logicalIndex) := by
  constructor
  · intro x
    by_cases hx : x = logicalIndex
    · subst hx
      simp [Colorful.deletePage, List.count_eq_zero, List.mem_filter]
    · rw [if_neg hx]
      exact List.count_filter (p := fun idx => decide (idx ≠ logicalIndex))
        (l := pageOrder) (a := x) (by simp [hx])
  · intro m
    simp [Colorful.deletePage, Finset.mem_erase, and_comm]

/-! ## C3: `deletePageAt` shifts the split markers -/

/-- C3: when the split markers are valid slot positions, deleting the slot at
an in-range `position` removes exactly that slot (`take position ++ drop
(position + 1)` keeps every other occurrence) and rewrites the marker set so
that a marker below `position` survives unchanged, a marker above it is
decremented by one, and a marker at `position` is dropped; an out-of-range
`position` leaves both `pageOrder` and the marker set untouched. -/
theorem deletePageAt_spec (s : AppState) (position : Nat)
    (hvalid : ∀ m ∈ s.splitIndices, m < s.pageOrder.length) :
    (position < s.pageOrder.length →
      ((deletePageAt s position).pageOrder =
        s.pageOrder.take position ++ s.pageOrder.drop (position + 1)) ∧
      (∀ m, m ∈ (deletePageAt s position).splitIndices ↔
        (m ∈ s.splitIndices ∧ m < position) ∨
        (m + 1 ∈ s.splitIndices ∧ position ≤ m))) ∧
    (s.pageOrder.length ≤ position →
      (deletePageAt s position).pageOrder = s.pageOrder ∧
      (deletePageAt s position).splitIndices = s.splitIndices) := by
  constructor
  · intro hpos
    have hlen : (s.pageOrder.eraseIdx position).length = s.pageOrder.length - 1 := by
      rw [List.length_eraseIdx, if_pos hpos]
    constructor
    · simp [deletePageAt, hpos, List.eraseIdx_eq_take_drop_succ]
    · intro m
      simp only [deletePageAt, if_pos hpos, Finset.mem_union, Finset.mem_filter,
        Finset.mem_image]
      constructor
      · rintro (⟨hm, hlt, -⟩ | ⟨pos, ⟨hmem, hgt, -⟩, rfl⟩)
        · exact Or.inl ⟨hm, hlt⟩
        · refine Or.inr ⟨?_, by omega⟩
          have hpos1 : pos - 1 + 1 = pos := by omega
          rwa [hpos1]
      · rintro (⟨hm, hlt⟩ | ⟨hm1, hle⟩)
        · have hmlt := hvalid m hm
          exact Or.inl ⟨hm, hlt, by omega⟩
        · have hmlt := hvalid (m + 1) hm1
          exact Or.inr ⟨m + 1, ⟨hm1, by omega, by omega⟩, by omega⟩
  · intro hpos
    have hnot : ¬ position < s.pageOrder.length := by omega
    constructor <;> simp [deletePageAt, hnot]

/-- Witness for C3: the P3 example — order `[0,1,2,3,4]`, markers `{1,3}`,
delete slot `2`. -/
theorem deletePageAt_spec_witness :
    (∀ m ∈ sampleState.splitIndices, m < sampleState.pageOrder.length) ∧
    ((2 < sampleState.pageOrder.length →
      ((deletePageAt sampleState 2).pageOrder =
        sampleState.pageOrder.take 2 ++ sampleState.pageOrder.drop (2 + 1)) ∧
      (∀ m, m ∈ (deletePageAt sampleState 2).splitIndices ↔
        (m ∈ sampleState.splitIndices ∧ m < 2) ∨
        (m + 1 ∈ sampleState.splitIndices ∧ 2 ≤ m))) ∧
    (sampleState.pageOrder.length ≤ 2 →
      (deletePageAt sampleState 2).pageOrder = sampleState.pageOrder ∧
      (deletePageAt sampleState 2).splitIndices = sampleState.splitIndices)) :=
  ⟨by decide, deletePageAt_spec sampleState 2 (by decide)⟩

/-! ## C7: sectioning edits invalidate the skip set, rotation does not -/

/-- C7: `duplicatePage`, `deletePageAt`, `toggleSplit`, and the interval/mode
handlers all clear the skip set; `rotatePage` leaves both the skip set and the
computed sections unchanged; and invariant I4 (every skipped index is below the
section count) holds after each of these operations, as well as after toggling
the skip state of a currently displayed section. -/
theorem edits_clear_skips_and_I4 (s : AppState) (i p v j : Nat) (d : Direction) (b : Bool)
    (hI4 : ∀ x ∈ s.skippedSections, x < (buildSections s).length)
    (hj : j < (buildSections s).length) :
    (duplicatePage s i).skippedSections = ∅ ∧
    (deletePageAt s p).skippedSections = ∅ ∧
    (toggleSplit s p).skippedSections = ∅ ∧
    (setAutoSplitInterval s v).skippedSections = ∅ ∧
    (setAutoSplitEnabled s b).skippedSections = ∅ ∧
    (rotatePage s i d).skippedSections = s.skippedSections ∧
    buildSections (rotatePage s i d) = buildSections s ∧
    (∀ x ∈ (duplicatePage s i).skippedSections,
      x < (buildSections (duplicatePage s i)).length) ∧
    (∀ x ∈ (deletePageAt s p).skippedSections,
      x < (buildSections (deletePageAt s p)).length) ∧
    (∀ x ∈ (toggleSplit s p).skippedSections,
      x < (buildSections (toggleSplit s p)).length) ∧
    (∀ x ∈ (setAutoSplitInterval s v).skippedSections,
      x < (buildSections (setAutoSplitInterval s v)).length) ∧
    (∀ x ∈ (setAutoSplitEnabled s b).skippedSections,
      x < (buildSections (setAutoSplitEnabled s b)).length) ∧
    (∀ x ∈ (rotatePage s i d).skippedSections,
      x < (buildSections (rotatePage s i d)).length) ∧
    (∀ x ∈ (toggleSkip s j).skippedSections,
      x < (buildSections (toggleSkip s j)).length) := by
  have hdel : (deletePageAt s p).skippedSections = ∅ := by
    unfold deletePageAt
    split <;> rfl
  have hrot : buildSections (rotatePage s i d) = buildSections s := rfl
  have htsk : buildSections (toggleSkip s j) = buildSections s := rfl
  refine ⟨rfl, hdel, rfl, rfl, rfl, rfl, hrot, ?_, ?_, ?_, ?_, ?_, ?_, ?_⟩
  · intro x hx
    simp [duplicatePage] at hx
  · intro x hx
    rw [hdel] at hx
    simp at hx
  · intro x hx
    simp [toggleSplit] at hx
  · intro x hx
    simp [setAutoSplitInterval] at hx
  · intro x hx
    simp [setAutoSplitEnabled] at hx
  · intro x hx
    rw [hrot]
    exact hI4 x hx
  · intro x hx
    rw [htsk]
    by_cases hjmem : j ∈ s.skippedSections
    · simp only [toggleSkip, if_pos hjmem] at hx
      exact hI4 x (Finset.mem_of_mem_erase hx)
    · simp only [toggleSkip, if_neg hjmem, Finset.mem_insert] at hx
      rcases hx with rfl | hx
      · exact hj
      · exact hI4 x hx

/-- The five-page sample in interval mode (split every 2 pages, so three
sections: `[[0,1],[2,3],[4]]`). -/
def intervalState : AppState :=
  { pageOrder := [0, 1, 2, 3, 4]
    rotations := fun _ => 0
    splitIndices := ∅
    autoSplitEnabled := true
    autoSplitInterval := 2
    skippedSections := ∅ }

/-- Witness for C7 at the interval-mode five-page state (three sections, so
section index 2 is displayed), duplicating page 0, deleting slot 2, toggling
split 2, interval 7, mode on, one right rotation of page 0. -/
theorem edits_clear_skips_and_I4_witness :
    (∀ x ∈ intervalState.skippedSections, x < (buildSections intervalState).length) ∧
    2 < (buildSections intervalState).length ∧
    ((duplicatePage intervalState 0).skippedSections = ∅ ∧
    (deletePageAt intervalState 2).skippedSections = ∅ ∧
    (toggleSplit intervalState 2).skippedSections = ∅ ∧
    (setAutoSplitInterval intervalState 7).skippedSections = ∅ ∧
    (setAutoSplitEnabled intervalState true).skippedSections = ∅ ∧
    (rotatePage intervalState 0 Direction.right).skippedSections = intervalState.skippedSections ∧
    buildSections (rotatePage intervalState 0 Direction.right) = buildSections intervalState ∧
    (∀ x ∈ (duplicatePage intervalState 0).skippedSections,
      x < (buildSections (duplicatePage intervalState 0)).length) ∧
    (∀ x ∈ (deletePageAt intervalState 2).skippedSections,
      x < (buildSections (deletePageAt intervalState 2)).length) ∧
    (∀ x ∈ (toggleSplit intervalState 2).skippedSections,
      x < (buildSections (toggleSplit intervalState 2)).length) ∧
    (∀ x ∈ (setAutoSplitInterval intervalState 7).skippedSections,
      x < (buildSections (setAutoSplitInterval intervalState 7)).length) ∧
    (∀ x ∈ (setAutoSplitEnabled intervalState true).skippedSections,
      x < (buildSections (setAutoSplitEnabled intervalState true)).length) ∧
    (∀ x ∈ (rotatePage intervalState 0 Direction.right).skippedSections,
      x < (buildSections (rotatePage intervalState 0 Direction.right)).length) ∧
    (∀ x ∈ (toggleSkip intervalState 2).skippedSections,
      x < (buildSections (toggleSkip intervalState 2)).length)) :=
  ⟨by decide, by decide,
    edits_clear_skips_and_I4 intervalState 0 2 7 2 Direction.right true
      (by decide) (by decide)⟩

/-! ## Section coverage: lemmas about the two `buildSections` loops -/

theorem chunkAux_nil (n fuel : Nat) : chunkAux n fuel [] = [] := by
  cases fuel <;> rfl

theorem chunkAux_flatten (n : Nat) (hn : 0 < n) :
    ∀ (fuel : Nat) (l : List Nat), l.length ≤ fuel → (chunkAux n fuel l).flatten = l := by
  intro fuel
  induction fuel with
  | zero =>
    intro l hl
    have : l = [] := List.length_eq_zero.mp (Nat.le_zero.mp hl)
    subst this
    rfl
  | succ fuel ih =>
    intro l hl
    cases l with
    | nil => rfl
    | cons a t =>
      rw [chunkAux, List.flatten_cons, ih _ (by simp at hl ⊢; omega)]
      exact List.take_append_drop n (a :: t)

theorem chunkAux_length_le (n : Nat) :
    ∀ (fuel : Nat) (l : List Nat) (c : List Nat), c ∈ chunkAux n fuel l → c.length ≤ n := by
  intro fuel
  induction fuel with
  | zero =>
    intro l c hc
    cases l <;> simp [chunkAux] at hc
  | succ fuel ih =>
    intro l c hc
    cases l with
    | nil => simp [chunkAux] at hc
    | cons a t =>
      rw [chunkAux] at hc
      rcases List.mem_cons.mp hc with rfl | hc
      · simp [List.length_take]
      · exact ih _ c hc

theorem chunkAux_ne_nil_of_arg_ne_nil (n fuel : Nat) (l : List Nat)
    (hfuel : l.length ≤ fuel) (hl : l ≠ []) : chunkAux n fuel l ≠ [] := by
  cases l with
  | nil => exact absurd rfl hl
  | cons a t =>
    cases fuel with
    | zero => simp at hfuel
    | succ fuel => simp [chunkAux]

theorem chunkAux_dropLast_length (n : Nat) (hn : 0 < n) :
    ∀ (fuel : Nat) (l : List Nat), l.length ≤ fuel →
      ∀ c ∈ (chunkAux n fuel l).dropLast, c.length = n := by
  intro fuel
  induction fuel with
  | zero =>
    intro l hl c hc
    have : l = [] := List.length_eq_zero.mp (Nat.le_zero.mp hl)
    subst this
    simp [chunkAux] at hc
  | succ fuel ih =>
    intro l hl c hc
    cases l with
    | nil => simp [chunkAux] at hc
    | cons a t =>
      rw [chunkAux] at hc
      by_cases hrec : chunkAux n fuel ((a :: t).drop n) = []
      · rw [hrec] at hc
        simp at hc
      · rw [List.dropLast_cons_of_ne_nil hrec] at hc
        rcases List.mem_cons.mp hc with rfl | hc
        · have hdrop : (a :: t).drop n ≠ [] := by
            intro hdn
            exact hrec (hdn ▸ chunkAux_nil n fuel)
          have hlen : n < (a :: t).length := by
            by_contra hle
            exact hdrop (List.drop_eq_nil_iff.mpr (by omega))
          simp only [List.length_take, List.length_cons] at hlen ⊢
          omega
        · exact ih _ (by simp at hl ⊢; omega) c hc

theorem manualSections_flatten (l : List Nat) :
    ∀ (ps : List Nat) (start : Nat), (manualSections l ps start).flatten = l.drop start := by
  intro ps
  induction ps with
  | nil =>
    intro start
    simp [manualSections]
  | cons pos rest ih =>
    intro start
    simp only [manualSections]
    by_cases h : start ≤ min pos (l.length - 1)
    · rw [if_pos h, List.flatten_cons, ih]
      have h1 : l.drop (min pos (l.length - 1) + 1) =
          (l.drop start).drop (min pos (l.length - 1) + 1 - start) := by
        rw [List.drop_drop]
        congr 1
        omega
      rw [h1]
      exact List.take_append_drop _ _
    · rw [if_neg h, ih]

theorem manualSections_getLast_of_ge (l : List Nat) :
    ∀ (ps : List Nat) (start : Nat), l.length ≤ start →
      (manualSections l ps start).getLast? = some [] := by
  intro ps
  induction ps with
  | nil =>
    intro start h
    simp [manualSections, List.drop_eq_nil_iff.mpr h]
  | cons pos rest ih =>
    intro start h
    simp only [manualSections]
    by_cases hle : start ≤ min pos (l.length - 1)
    · rw [if_pos hle, List.getLast?_cons, ih (min pos (l.length - 1) + 1) (by omega)]
      rfl
    · rw [if_neg hle]
      exact ih start h

theorem manualSections_getLast_of_clamped (l : List Nat) :
    ∀ (ps : List Nat) (start : Nat), (∃ p ∈ ps, l.length ≤ p + 1) →
      (manualSections l ps start).getLast? = some [] := by
  intro ps
  induction ps with
  | nil =>
    rintro start ⟨p, hp, -⟩
    simp at hp
  | cons pos rest ih =>
    rintro start ⟨p, hp, hlen⟩
    rcases List.mem_cons.mp hp with rfl | hp
    · simp only [manualSections]
      by_cases hle : start ≤ min p (l.length - 1)
      · rw [if_pos hle, List.getLast?_cons,
          manualSections_getLast_of_ge l rest (min p (l.length - 1) + 1) (by omega)]
        rfl
      · rw [if_neg hle]
        exact manualSections_getLast_of_ge l rest start (by omega)
    · simp only [manualSections]
      by_cases hle : start ≤ min pos (l.length - 1)
      · rw [if_pos hle, List.getLast?_cons, ih (min pos (l.length - 1) + 1) ⟨p, hp, hlen⟩]
        rfl
      · rw [if_neg hle]
        exact ih start ⟨p, hp, hlen⟩

/-! ## C1: sections cover the page order with no gaps and no overlaps -/

/-- C1: for a non-empty page order, the concatenation of the computed sections
is exactly the page order — in manual mode with every marker a valid position
of `[0, len - 2]`, and in interval mode with any interval `≥ 1`, where the
chunks additionally all have length at most the interval, every chunk except
possibly the last having exactly that length; for the empty page order the
section list is empty. -/
theorem buildSections_coverage (s : AppState)
    (hmode : (s.autoSplitEnabled = false ∧ ∀ m ∈ s.splitIndices, m + 1 < s.pageOrder.length) ∨
      (s.autoSplitEnabled = true ∧ 1 ≤ s.autoSplitInterval)) :
    (s.pageOrder ≠ [] →
      (buildSections s).flatten = s.pageOrder ∧
      (s.autoSplitEnabled = true →
        (∀ c ∈ buildSections s, c.length ≤ s.autoSplitInterval) ∧
        (∀ c ∈ (buildSections s).dropLast, c.length = s.autoSplitInterval))) ∧
    (s.pageOrder = [] → buildSections s = []) := by
  constructor
  · intro hne
    rcases hmode with ⟨hman, hvalid⟩ | ⟨hen, hint⟩
    · have hb : buildSections s =
          manualSections s.pageOrder (s.splitIndices.sort (· ≤ ·)) 0 := by
        simp [buildSections, hne, hman]
      refine ⟨?_, ?_⟩
      · rw [hb, manualSections_flatten]
        simp
      · intro habs
        rw [hman] at habs
        cases habs
    · have hn : 0 < s.autoSplitInterval := by omega
      have hb : buildSections s =
          chunkAux s.autoSplitInterval s.pageOrder.length s.pageOrder := by
        have hn0 : s.autoSplitInterval ≠ 0 := by omega
        simp [buildSections, hne, hen, hn, chunkList, hn0]
      rw [hb]
      refine ⟨chunkAux_flatten _ hn _ _ le_rfl, fun _ => ⟨?_, ?_⟩⟩
      · intro c hc
        exact chunkAux_length_le _ _ _ c hc
      · intro c hc
        exact chunkAux_dropLast_length _ hn _ _ le_rfl c hc
  · intro h0
    simp [buildSections, h0]

/-- Witness for C1 at the interval-mode five-page state (interval 2):
sections `[[0,1],[2,3],[4]]`. -/
theorem buildSections_coverage_witness :
    ((intervalState.autoSplitEnabled = false ∧
        ∀ m ∈ intervalState.splitIndices, m + 1 < intervalState.pageOrder.length) ∨
      (intervalState.autoSplitEnabled = true ∧ 1 ≤ intervalState.autoSplitInterval)) ∧
    ((intervalState.pageOrder ≠ [] →
      (buildSections intervalState).flatten = intervalState.pageOrder ∧
      (intervalState.autoSplitEnabled = true →
        (∀ c ∈ buildSections intervalState, c.length ≤ intervalState.autoSplitInterval) ∧
        (∀ c ∈ (buildSections intervalState).dropLast,
          c.length = intervalState.autoSplitInterval))) ∧
    (intervalState.pageOrder = [] → buildSections intervalState = [])) :=
  ⟨Or.inr ⟨rfl, by decide⟩, buildSections_coverage intervalState (Or.inr ⟨rfl, by decide⟩)⟩

/-! ## C10: manual-mode coverage for arbitrary marker sets -/

/-- A three-page manual-mode state whose marker set `{0, 5}` holds a marker far
past the end of the page order. -/
def clampState : AppState :=
  { pageOrder := [0, 1, 2]
    rotations := fun _ => 0
    splitIndices := {0, 5}
    autoSplitEnabled := false
    autoSplitInterval := 1
    skippedSections := ∅ }

/-- C10: in manual mode the concatenated sections rebuild a non-empty page
order exactly for every marker set, valid or not; and whenever some marker lies
at or past the last slot (`len - 1 ≤ m`), the returned section list ends in an
empty trailing section. -/
theorem buildSections_manual_any_markers (s : AppState)
    (hmanual : s.autoSplitEnabled = false) (hne : s.pageOrder ≠ []) :
    (buildSections s).flatten = s.pageOrder ∧
    ((∃ m ∈ s.splitIndices, s.pageOrder.length ≤ m + 1) →
      (buildSections s).getLast? = some []) := by
  have hb : buildSections s =
      manualSections s.pageOrder (s.splitIndices.sort (· ≤ ·)) 0 := by
    simp [buildSections, hne, hmanual]
  rw [hb]
  constructor
  · rw [manualSections_flatten]
    simp
  · rintro ⟨m, hm, hlen⟩
    exact manualSections_getLast_of_clamped _ _ 0 ⟨m, (Finset.mem_sort _).mpr hm, hlen⟩

/-- Witness for C10 at the three-page state with markers `{0, 5}`: marker 5 is
clamped, coverage still holds and the section list ends in an empty section. -/
theorem buildSections_manual_any_markers_witness :
    clampState.autoSplitEnabled = false ∧ clampState.pageOrder ≠ [] ∧
    ((buildSections clampState).flatten = clampState.pageOrder ∧
    ((∃ m ∈ clampState.splitIndices, clampState.pageOrder.length ≤ m + 1) →
      (buildSections clampState).getLast? = some [])) :=
  ⟨rfl, by decide, buildSections_manual_any_markers clampState rfl (by decide)⟩

/-! ## C2: export numbering -/

/-- Modelled from the spec: the sections that `exportSections` retains —
"filters out sections whose index is in skipSet, preserving relative order of
the remainder" — written as a direct recursion over the section list with its
running index, for comparison with the `enum`/`filter` pipeline of the code. -/
def keptSections (K : Finset Nat) : Nat → List (List Nat) → List (List Nat)
  | _, [] => []
  | i, sec :: rest =>
    if i ∈ K then keptSections K (i + 1) rest
    else sec :: keptSections K (i + 1) rest

theorem enumFrom_filter_map_snd (K : Finset Nat) :
    ∀ (l : List (List Nat)) (st : Nat),
      ((List.enumFrom st l).filter (fun p => p.1 ∉ K)).map Prod.snd =
        keptSections K st l := by
  intro l
  induction l with
  | nil =>
    intro st
    rfl
  | cons a t ih =>
    intro st
    rw [List.enumFrom_cons, List.filter_cons]
    by_cases h : st ∈ K
    · rw [if_neg (by simp [h])]
      have hk : keptSections K st (a :: t) = keptSections K (st + 1) t := by
        simp only [keptSections, if_pos h]
      rw [hk]
      exact ih (st + 1)
    · rw [if_pos (by simp [h])]
      have hk : keptSections K st (a :: t) = a :: keptSections K (st + 1) t := by
        simp only [keptSections, if_neg h]
      rw [hk, List.map_cons, ih (st + 1)]

theorem enumFrom_filter_length (K : Finset Nat) :
    ∀ (l : List (List Nat)) (st : Nat),
      ((List.enumFrom st l).filter (fun p => p.1 ∉ K)).length +
        ((List.range' st l.length).filter (fun i => i ∈ K)).length = l.length := by
  intro l
  induction l with
  | nil =>
    intro st
    rfl
  | cons a t ih =>
    intro st
    rw [List.enumFrom_cons, List.filter_cons, List.length_cons, List.range'_succ,
      List.filter_cons]
    have hih := ih (st + 1)
    by_cases h : st ∈ K
    · rw [if_neg (by simp [h]), if_pos (by simp [h]), List.length_cons]
      omega
    · rw [if_pos (by simp [h]), if_neg (by simp [h]), List.length_cons]
      omega

theorem filter_range_mem_length (K : Finset Nat) :
    ∀ n : Nat, ((List.range n).filter (fun i => i ∈ K)).length =
      (K ∩ Finset.range n).card := by
  intro n
  induction n with
  | zero => simp
  | succ n ih =>
    rw [List.range_succ, List.filter_append, List.length_append, ih]
    by_cases h : n ∈ K
    · have h1 : K ∩ Finset.range (n + 1) = insert n (K ∩ Finset.range n) := by
        rw [Finset.inter_comm K, Finset.range_succ, Finset.insert_inter_of_mem h,
          Finset.inter_comm]
      rw [h1, Finset.card_insert_of_not_mem (by simp)]
      simp [h]
    · have h1 : K ∩ Finset.range (n + 1) = K ∩ Finset.range n := by
        rw [Finset.inter_comm K, Finset.range_succ, Finset.insert_inter_of_not_mem h,
          Finset.inter_comm]
      rw [h1]
      simp [h]

/-- C2: for any skip set `K` of valid section indices, the export plan emits
exactly the sections whose index is not in `K`, in their original relative
order (`keptSections`), and the emitted files are exactly
`split_1.pdf … split_{n - |K|}.pdf` — contiguous 1-based numbering with no gaps,
independent of which indices were skipped. -/
theorem exportOutputs_numbering (sections : List (List Nat)) (K : Finset Nat)
    (hK : ∀ k ∈ K, k < sections.length) :
    (exportOutputs sections K).map Prod.snd = keptSections K 0 sections ∧
    (exportOutputs sections K).length = sections.length - K.card ∧
    (exportOutputs sections K).map Prod.fst =
      (List.range (sections.length - K.card)).map (fun i => splitFileName (i + 1)) := by
  have henum : sections.enum = List.enumFrom 0 sections := rfl
  have hkeep : (sections.enum.filter (fun p => p.1 ∉ K)).length =
      sections.length - K.card := by
    have h2 := enumFrom_filter_length K sections 0
    have h3 : ((List.range sections.length).filter (fun i => i ∈ K)).length = K.card := by
      rw [filter_range_mem_length,
        Finset.inter_eq_left.mpr (fun k hk => Finset.mem_range.mpr (hK k hk))]
    rw [henum]
    rw [List.range_eq_range'] at h3
    omega
  refine ⟨?_, ?_, ?_⟩
  · show ((sections.enum.filter (fun p => p.1 ∉ K)).enum.map
        (fun q => (splitFileName (q.1 + 1), q.2.2))).map Prod.snd = _
    rw [List.map_map]
    have hcomp : (Prod.snd ∘ fun q : Nat × (Nat × List Nat) =>
        (splitFileName (q.1 + 1), q.2.2)) = Prod.snd ∘ Prod.snd := rfl
    rw [hcomp, ← List.map_map, List.enum_map_snd, henum, enumFrom_filter_map_snd]
  · show ((sections.enum.filter (fun p => p.1 ∉ K)).enum.map
        (fun q => (splitFileName (q.1 + 1), q.2.2))).length = _
    rw [List.length_map, List.enum_length, hkeep]
  · show ((sections.enum.filter (fun p => p.1 ∉ K)).enum.map
        (fun q => (splitFileName (q.1 + 1), q.2.2))).map Prod.fst = _
    rw [List.map_map]
    have hcomp : (Prod.fst ∘ fun q : Nat × (Nat × List Nat) =>
        (splitFileName (q.1 + 1), q.2.2)) = (fun i => splitFileName (i + 1)) ∘ Prod.fst := rfl
    rw [hcomp, ← List.map_map, List.enum_map_fst, hkeep]

/-- Witness for C2: sections `[[0,1],[2,3],[4]]` with section 1 skipped —
two files, named `split_1.pdf` and `split_2.pdf`. -/
theorem exportOutputs_numbering_witness :
    (∀ k ∈ ({1} : Finset Nat), k < ([[0, 1], [2, 3], [4]] : List (List Nat)).length) ∧
    ((exportOutputs [[0, 1], [2, 3], [4]] {1}).map Prod.snd =
      keptSections {1} 0 [[0, 1], [2, 3], [4]] ∧
    (exportOutputs [[0, 1], [2, 3], [4]] {1}).length =
      ([[0, 1], [2, 3], [4]] : List (List Nat)).length - ({1} : Finset Nat).card ∧
    (exportOutputs [[0, 1], [2, 3], [4]] {1}).map Prod.fst =
      (List.range (([[0, 1], [2, 3], [4]] : List (List Nat)).length -
        ({1} : Finset Nat).card)).map (fun i => splitFileName (i + 1))) :=
  ⟨by decide, exportOutputs_numbering [[0, 1], [2, 3], [4]] {1} (by decide)⟩
